import Mathlib

/-!
Shallow embedding of the Bybit execution-listener bot (`bot.py`) and proofs
about its enrichment / deduplication pipeline.

Modelling conventions:
* Python numbers are modelled as exact rationals (`ℚ`); timestamps as `Int`.
* JSON-ish dicts (websocket events, order/position records) are association
  lists `List (String × String)`; Python dict insertion order is preserved.
* REST responses are supplied as explicit oracle data (`Option` values,
  `none` standing for a raised-and-caught exception).
* `time.time()` is an explicit `now : Int` parameter.
-/

namespace Bot

/-- A JSON-ish record / event: string keys mapped to string values,
in insertion order (mirrors a Python dict of scalars). -/
abbrev Rec := List (String × String)

/-- Python `d.get(k)`: `none` when the key is absent. -/
def rget (r : Rec) (k : String) : Option String := List.lookup k r

/-- Python `d.get(k, default)`. -/
def rgetD (r : Rec) (k : String) (d : String) : String := (rget r k).getD d

/-- Python `a or b` on strings (only `""` is falsy). -/
def pyOr (a b : String) : String := if a = "" then b else a

/-- Python `a or b` where `a` may be `None` (absent key) or an empty string. -/
def pyOrO (a b : Option String) : Option String :=
  match a with
  | some s => if s = "" then b else some s
  | none => b

/-- Python `s.lower()` over the ASCII domain the bot compares against
(`Char.toLower`, applied characterwise). -/
def pyLower (s : String) : String := String.mk (s.data.map Char.toLower)

/-- Numeric string parser for the fractional-digits part. -/
def digitsVal (cs : List Char) : Option Nat :=
  if cs = [] then none
  else if cs.all Char.isDigit then
    some (cs.foldl (fun a c => a * 10 + (c.toNat - 48)) 0)
  else none

/-- Python `int(s)` on a decimal string (sign plus digits); `none` models the
raised `ValueError`. -/
def parsePyInt (s : String) : Option Int :=
  match s.data with
  | '-' :: cs => (digitsVal cs).map (fun n => -(n : Int))
  | '+' :: cs => (digitsVal cs).map (fun n => (n : Int))
  | cs => (digitsVal cs).map (fun n => (n : Int))

/-- Unsigned decimal literal `digits [. digits]` as an exact rational. -/
def parseUnsignedDec (cs : List Char) : Option ℚ :=
  match cs.span Char.isDigit with
  | (ip, []) => (digitsVal ip).map (fun n => (n : ℚ))
  | (ip, '.' :: fp) =>
    if fp = [] then (digitsVal ip).map (fun n => (n : ℚ))
    else if ip = [] then (digitsVal fp).map (fun n => (n : ℚ) / 10 ^ fp.length)
    else
      match digitsVal ip, digitsVal fp with
      | some a, some b => some ((a : ℚ) + (b : ℚ) / 10 ^ fp.length)
      | _, _ => none
  | _ => none

/-- Mantissa together with an optional exponent part. -/
def applyExp (m : ℚ) (ecs : List Char) : Option ℚ :=
  match ecs with
  | '-' :: ds => (digitsVal ds).map (fun e => m / 10 ^ e)
  | '+' :: ds => (digitsVal ds).map (fun e => m * 10 ^ e)
  | ds => (digitsVal ds).map (fun e => m * 10 ^ e)

/-- Python `float(s)` over the decimal-literal domain, as an exact rational.
Strings such as `"nan"` and `"inf"` yield `none`, which coincides with the
behaviour the callers obtain from the `math.isfinite` guard. -/
def parsePyFloat (s : String) : Option ℚ :=
  let signAndRest : ℚ × List Char :=
    match s.data with
    | '-' :: r => (-1, r)
    | '+' :: r => (1, r)
    | r => (1, r)
  let sign := signAndRest.1
  match signAndRest.2.splitOnP (fun c => c == 'e' || c == 'E') with
  | [m] => (parseUnsignedDec m).map (fun q => sign * q)
  | [m, e] => (parseUnsignedDec m).bind (fun q => (applyExp q e).map (fun r => sign * r))
  | _ => none

/-- Round to the nearest integer, ties to even (the rounding used by Python's
fixed-point float formatting, applied here to the exact rational value). -/
def roundHalfEven (q : ℚ) : Int :=
  let f := Rat.floor q
  let frac := q - (f : ℚ)
  if frac < 1 / 2 then f
  else if 1 / 2 < frac then f + 1
  else if f % 2 = 0 then f else f + 1

/-- Left-pad a numeral with zeros to the given width. -/
def padZeros (s : String) (w : Nat) : String :=
  if s.length < w then String.mk (List.replicate (w - s.length) '0') ++ s else s

/-- Python `f"{v:.{nd}f}"` on the exact rational value (`ℚ` has no signed
zero, so a negative value that rounds to zero prints without a sign). -/
def fmtFixed (v : ℚ) (nd : Nat) : String :=
  let scaled := roundHalfEven (v * (10 ^ nd : ℕ))
  let a := scaled.natAbs
  let ip := a / 10 ^ nd
  let fp := a % 10 ^ nd
  let fracStr := if nd = 0 then "" else "." ++ padZeros (toString fp) nd
  (if scaled < 0 then "-" else "") ++ toString ip ++ fracStr

/-- Python `s.rstrip(c)` for a single strip character. -/
def rstripChar (s : String) (c : Char) : String :=
  String.mk (s.data.reverse.dropWhile (fun x => x == c)).reverse

/-- Source `fmt_num` applied to an actual number (bot.py lines 53-60, the
`math.isfinite` branch): fixed-point format, strip trailing zeros, then a
trailing decimal point. -/
def fmtNumQ (v : ℚ) (nd : Nat) : String :=
  rstripChar (rstripChar (fmtFixed v nd) '0') '.'

/-- Source `fmt_num` (bot.py lines 53-60) on a raw string field: parse as a float,
format when finite, otherwise pass the string through. -/
def fmt_num (x : String) (nd : Nat) : String :=
  match parsePyFloat x with
  | some v => fmtNumQ v nd
  | none => x

/-- Source `to_float` (bot.py lines 63-70): `None`, `""` and `"—"` give `None`;
otherwise parse, rejecting non-finite values. -/
def to_float (x : Option String) : Option ℚ :=
  match x with
  | none => none
  | some s => if s = "" ∨ s = "—" then none else parsePyFloat s

/-- Source `map_market_type` (bot.py lines 73-83). -/
def map_market_type (category : String) : String :=
  let c := pyLower category
  if c = "spot" then "Spot"
  else if c = "linear" then "Futures (Linear)"
  else if c = "inverse" then "Futures (Inverse)"
  else if c = "option" then "Options"
  else if category = "" then "Unknown" else category

/-- Source `calc_rr` (bot.py lines 86-102). -/
def calc_rr (side : String) (entry sl tp : Option ℚ) : Option ℚ :=
  match entry, sl, tp with
  | some e, some slv, some tpv =>
    let s := pyLower side
    let isLong := s = "buy" ∨ s = "long"
    let risk := if isLong then e - slv else slv - e
    let reward := if isLong then tpv - e else e - tpv
    if risk ≤ 0 ∨ reward ≤ 0 then none else some (reward / risk)
  | _, _, _ => none

/-- Civil date from days since 1970-01-01 (the Gregorian-calendar arithmetic
performed by `datetime.fromtimestamp`). -/
def civilFromDays (z0 : Int) : Int × Nat × Nat :=
  let z := z0 + 719468
  let era := z.fdiv 146097
  let doe := (z - era * 146097).toNat
  let yoe := (doe - doe / 1460 + doe / 36524 - doe / 146096) / 365
  let y := (yoe : Int) + era * 400
  let doy := doe - (365 * yoe + yoe / 4 - yoe / 100)
  let mp := (5 * doy + 2) / 153
  let d := doy - (153 * mp + 2) / 5 + 1
  let m := if mp < 10 then mp + 3 else mp - 9
  (if m ≤ 2 then y + 1 else y, m, d)

/-- Two-digit zero-padded numeral. -/
def pad2 (n : Nat) : String := padZeros (toString n) 2

/-- Source `utc_to_local` (bot.py lines 45-50): epoch milliseconds to a local
timestamp string under a flat hour offset, plus the offset label. -/
def utc_to_local (ts_ms : Int) (utc_offset_hours : Int) : String × String :=
  let totalSec := ts_ms.fdiv 1000 + utc_offset_hours * 3600
  let days := totalSec.fdiv 86400
  let sod := (totalSec - days * 86400).toNat
  let ymd := civilFromDays days
  let ystr := if ymd.1 < 0 then "-" ++ padZeros (toString (-ymd.1).toNat) 4
              else padZeros (toString ymd.1.toNat) 4
  let sign := if 0 ≤ utc_offset_hours then "+" else "-"
  (ystr ++ "-" ++ pad2 ymd.2.1 ++ "-" ++ pad2 ymd.2.2 ++ " " ++
     pad2 (sod / 3600) ++ ":" ++ pad2 (sod % 3600 / 60) ++ ":" ++ pad2 (sod % 60),
   "UTC" ++ sign ++ toString utc_offset_hours.natAbs)

section TTLCache

variable {K V : Type} [DecidableEq K]

/-- A TTL cache: an insertion-ordered dict mapping keys to
(timestamp, value) pairs, as a list of entries. -/
abbrev CacheL (K V : Type) := List (K × Int × V)

/-- The keys of a cache, in dict order. -/
def keysOf (c : CacheL K V) : List K := c.map Prod.fst

/-- Dict lookup: the entry stored under `k`. -/
def cacheFind : CacheL K V → K → Option (Int × V)
  | [], _ => none
  | e :: es, k => if e.1 = k then some e.2 else cacheFind es k

/-- Dict store `d[k] = (t, v)`: an existing key is updated in place, a new
key is appended (Python dict insertion order). -/
def cacheStore (c : CacheL K V) (k : K) (t : Int) (v : V) : CacheL K V :=
  if k ∈ keysOf c then c.map (fun e => if e.1 = k then (k, t, v) else e)
  else c ++ [(k, t, v)]

/-- Comparison by timestamp, the sort key used during eviction. -/
def tsLe (a b : K × Int × V) : Prop := a.2.1 ≤ b.2.1

instance : DecidableRel (tsLe (K := K) (V := V)) :=
  fun a b => inferInstanceAs (Decidable (a.2.1 ≤ b.2.1))

instance : IsTotal (K × Int × V) tsLe := ⟨fun a b => Int.le_total a.2.1 b.2.1⟩

instance : IsTrans (K × Int × V) tsLe := ⟨fun _ _ _ => Int.le_trans⟩

/-- Source `_cache_get` / `_position_cache_get` (bot.py lines 138-146 and 155-163):
TTL lookup that lazily evicts a stale entry. -/
def cache_get (c : CacheL K V) (k : K) (now ttl : Int) : Option V × CacheL K V :=
  match cacheFind c k with
  | none => (none, c)
  | some (ts, v) =>
    if ttl < now - ts then (none, c.filter (fun e => decide (e.1 ≠ k)))
    else (some v, c)

/-- Source `_cache_put` / `_position_cache_put` (bot.py lines 148-153 and 165-170):
store, then while over capacity evict the oldest entries by timestamp.
Python's `sorted` is stable, and so is `List.insertionSort`. -/
def cache_put (c : CacheL K V) (k : K) (t : Int) (v : V) (maxItems : Nat) :
    CacheL K V :=
  let c' := cacheStore c k t v
  if maxItems < c'.length then
    let srt := List.insertionSort tsLe c'
    let evict := keysOf (srt.take (max 1 (c'.length - maxItems)))
    c'.filter (fun e => decide (e.1 ∉ evict))
  else c'

end TTLCache

/-- One kline row reduced to the fields the bot reads: `(r[0], r[4])`,
start time in milliseconds and close price. -/
abbrev Kline := Int × ℚ

/-- Comparison by bar start time (`key=lambda r: int(r[0])`). -/
def rowLe (a b : Kline) : Prop := a.1 ≤ b.1

instance : DecidableRel rowLe := fun a b => inferInstanceAs (Decidable (a.1 ≤ b.1))

instance : IsTotal Kline rowLe := ⟨fun a b => Int.le_total a.1 b.1⟩

instance : IsTrans Kline rowLe := ⟨fun _ _ _ => Int.le_trans⟩

/-- Deltas between consecutive closes. -/
def deltasOf (closes : List ℚ) : List ℚ :=
  (closes.zip closes.tail).map (fun p => p.2 - p.1)

/-- Positive parts of the deltas (`max(d, 0.0)`). -/
def gainsOf (closes : List ℚ) : List ℚ := (deltasOf closes).map (fun d => max d 0)

/-- Magnitudes of the negative deltas (`max(-d, 0.0)`). -/
def lossesOf (closes : List ℚ) : List ℚ := (deltasOf closes).map (fun d => max (-d) 0)

/-- Wilder smoothing `avg = (avg*(length-1) + x)/length` over a list. -/
def smoothAvg (length : Nat) (init : ℚ) (xs : List ℚ) : ℚ :=
  xs.foldl (fun avg x => (avg * ((length : ℚ) - 1) + x) / (length : ℚ)) init

/-- The final smoothed average gain of `get_rsi_4h` (bot.py lines 241-256). -/
def rsiAvgGain (length : Nat) (rows : List Kline) : ℚ :=
  let closes := (List.insertionSort rowLe rows).map Prod.snd
  let gains := gainsOf closes
  smoothAvg length ((gains.take length).sum / (length : ℚ)) (gains.drop length)

/-- The final smoothed average loss of `get_rsi_4h` (bot.py lines 241-256). -/
def rsiAvgLoss (length : Nat) (rows : List Kline) : ℚ :=
  let closes := (List.insertionSort rowLe rows).map Prod.snd
  let losses := lossesOf closes
  smoothAvg length ((losses.take length).sum / (length : ℚ)) (losses.drop length)

/-- The RSI computation on fetched rows (bot.py lines 237-261). For
`length = 0` the Python code raises `ZeroDivisionError`, which the enclosing
handler turns into `None`; that is modelled by the explicit guard. -/
def rsiFromRows (length : Nat) (rows : List Kline) : Option ℚ :=
  if rows = [] ∨ rows.length < length + 2 then none
  else if length = 0 then none
  else if rsiAvgLoss length rows = 0 then some 100
  else some (100 - 100 / (1 + rsiAvgGain length rows / rsiAvgLoss length rows))

/-- Source `get_rsi_4h` (bot.py lines 231-264). The kline response is oracle data;
`none` models a raised-and-caught fetch error. -/
def get_rsi_4h (klineResp : Option (List Kline)) (category symbol : String)
    (length : Nat) : Option ℚ :=
  if pyLower category = "" then none
  else
    match klineResp with
    | none => none
    | some rows => rsiFromRows length rows

/-- Source `make_bybit_link` (bot.py lines 266-273). -/
def make_bybit_link (testnet : Bool) (category symbol : String) : String :=
  let c := pyLower category
  let base := if testnet then "https://testnet.bybit.com" else "https://www.bybit.com"
  if c = "spot" then base ++ "/trade/spot/" ++ symbol
  else if c = "inverse" then base ++ "/trade/inverse/" ++ symbol
  else base ++ "/trade/usdt/" ++ symbol

/-- Source `make_tv_link` (bot.py lines 275-277). -/
def make_tv_link (symbol : String) : String :=
  "https://www.tradingview.com/symbols/" ++ symbol ++ "/"

/-- Source `get_order_details` (bot.py lines 172-206). The two REST responses are
oracle data (`none` = raised-and-caught exception). The result carries the
returned record, the updated cache, and whether the filtered and the
fallback queries were issued. -/
def get_order_details (oc : CacheL String Rec) (category symbol order_id : String)
    (now : Int) (respFiltered respFallback : Option (List Rec))
    (ttl : Int) (maxItems : Nat) : Rec × CacheL String Rec × Bool × Bool :=
  if order_id = "" then ([], oc, false, false)
  else
    match cache_get oc order_id now ttl with
    | (some v, oc₁) => (v, oc₁, false, false)
    | (none, oc₁) =>
      if pyLower category = "" then ([], oc₁, false, false)
      else
        match respFiltered with
        | some (r :: _) => (r, cache_put oc₁ order_id now r maxItems, true, false)
        | _ =>
          match respFallback with
          | some lst =>
            match lst.find? (fun it => rgetD it "orderId" "" == order_id) with
            | some r => (r, cache_put oc₁ order_id now r maxItems, true, true)
            | none => ([], cache_put oc₁ order_id now [] maxItems, true, true)
          | none => ([], cache_put oc₁ order_id now [] maxItems, true, true)

/-- Source `get_position_details` (bot.py lines 208-229). -/
def get_position_details (pc : CacheL (String × String) Rec)
    (category symbol : String) (now : Int) (resp : Option (List Rec))
    (ttl : Int) (maxItems : Nat) : Rec × CacheL (String × String) Rec :=
  let c := pyLower category
  if c = "" ∨ symbol = "" then ([], pc)
  else
    match cache_get pc (c, symbol) now ttl with
    | (some v, pc₁) => (v, pc₁)
    | (none, pc₁) =>
      match resp with
      | some (r :: _) => (r, cache_put pc₁ (c, symbol) now r maxItems)
      | _ => ([], cache_put pc₁ (c, symbol) now [] maxItems)

/-- The environment of one handler invocation: configuration plus the
behaviour of the external collaborators (REST responses per query, the
Telegram send outcome per payload), and the current clock value. -/
structure Env where
  now : Int
  utcOffsetHours : Int
  testnet : Bool
  execidCacheMax : Nat
  orderFiltered : String → String → String → Option (List Rec)
  orderFallback : String → String → Option (List Rec)
  positions : String → String → Option (List Rec)
  kline : String → String → Option (List Kline)
  sendOk : String → Bool

/-- The `category` probed by `build_message` (bot.py line 284). -/
def bmCategory (evt : Rec) : String :=
  pyOr (rgetD evt "category" "") (rgetD evt "categoryType" "")

/-- The `order_id` probed by `build_message` (bot.py line 293); the trailing
`or ""` is the identity on strings. -/
def bmOrderId (evt : Rec) : String :=
  match rget evt "orderId" with
  | some v => v
  | none => rgetD evt "order_id" ""

/-- The `symbol` probed by `build_message` (bot.py line 287). -/
def bmSymbol (evt : Rec) : String := rgetD evt "symbol" "—"

/-- The `current_pnl` value derived from the event alone
(bot.py lines 303-309). -/
def bmCurrentPnl0 (evt : Rec) : Option ℚ :=
  to_float (pyOrO (pyOrO (pyOrO (pyOrO (rget evt "pnl") (rget evt "unrealizedPnl"))
    (rget evt "unrealisedPnl")) (rget evt "cumPnl")) (rget evt "positionPnl"))

/-- Line `ts_ms = int(exec_evt.get("execTime", exec_evt.get("ts", 0)) or 0)`
(bot.py line 311); `none` models the raised `ValueError`. -/
def bmTsMs (evt : Rec) : Option Int :=
  let raw :=
    match rget evt "execTime" with
    | some v => v
    | none => rgetD evt "ts" "0"
  if raw = "" then some 0 else parsePyInt raw

/-- The order-details lookup performed by `build_message` (bot.py line 315),
returning the record together with the updated order cache. -/
def bmOrderDetails (env : Env) (evt : Rec) (oc : CacheL String Rec) :
    Rec × CacheL String Rec :=
  let category := bmCategory evt
  let order_id := bmOrderId evt
  if order_id ≠ "" ∧ category ≠ "" then
    let r := get_order_details oc category (bmSymbol evt) order_id env.now
      (env.orderFiltered (pyLower category) (bmSymbol evt) order_id)
      (env.orderFallback (pyLower category) (bmSymbol evt)) 3600 3000
    (r.1, r.2.1)
  else ([], oc)

/-- The position-details lookup performed by `build_message`
(bot.py lines 324-325), returning the record and the updated cache. -/
def bmPositionDetails (env : Env) (evt : Rec) (pc : CacheL (String × String) Rec) :
    Rec × CacheL (String × String) Rec :=
  let category := bmCategory evt
  if bmCurrentPnl0 evt = none ∧ category ≠ "" then
    get_position_details pc category (bmSymbol evt) env.now
      (env.positions (pyLower category) (bmSymbol evt)) 15 2000
  else ([], pc)

/-- The RSI lookup performed by `build_message` (bot.py line 334). -/
def bmRsi (env : Env) (evt : Rec) : Option ℚ :=
  get_rsi_4h (env.kline (pyLower (bmCategory evt)) (bmSymbol evt))
    (bmCategory evt) (bmSymbol evt) 14

/-- The text assembly of `build_message` (bot.py lines 284-378) as a function
of the event, the parsed timestamp, the enrichment records, the indicator
value, and the two configuration values it reads. -/
def buildText (testnet : Bool) (off : Int) (evt : Rec) (tsms : Int)
    (od pd : Rec) (rsi : Option ℚ) : String :=
  let category := bmCategory evt
  let market_type := map_market_type category
  let symbol := bmSymbol evt
  let side := rgetD evt "side" "—"
  let order_type :=
    match rget evt "orderType" with
    | some v => v
    | none => rgetD evt "order_type" "—"
  let order_status0 :=
    match rget evt "orderStatus" with
    | some v => v
    | none => rgetD evt "order_status" "—"
  let exec_id :=
    match rget evt "execId" with
    | some v => v
    | none => rgetD evt "exec_id" "—"
  let order_id := bmOrderId evt
  let avg_fill_price :=
    match rget evt "execPrice" with
    | some v => v
    | none => rgetD evt "price" "—"
  let filled_qty :=
    match rget evt "execQty" with
    | some v => v
    | none => rgetD evt "qty" "—"
  let filled_notional :=
    match rget evt "execValue" with
    | some v => v
    | none => rgetD evt "value" "—"
  let fee := rgetD evt "execFee" "—"
  let fee_coin :=
    match rget evt "feeCurrency" with
    | some v => v
    | none => rgetD evt "feeCoin" "—"
  let pnl_coin :=
    match rget evt "pnlCurrency" with
    | some v => v
    | none =>
      match rget evt "profitCurrency" with
      | some v => v
      | none => pyOr fee_coin "USDT"
  let realized_pnl0 :=
    to_float (pyOrO (pyOrO (rget evt "execPnl") (rget evt "realizedPnl"))
      (rget evt "closedPnl"))
  let tl := utc_to_local tsms off
  let order_status :=
    if order_status0 = "—" ∨ order_status0 = "" then rgetD od "orderStatus" "—"
    else order_status0
  let realized_pnl :=
    match realized_pnl0 with
    | some v => some v
    | none => to_float (pyOrO (rget od "closedPnl") (rget od "realizedPnl"))
  let stop_loss := to_float (rget od "stopLoss")
  let take_profit := to_float (rget od "takeProfit")
  let entry_price := to_float (some avg_fill_price)
  let current_pnl :=
    match bmCurrentPnl0 evt with
    | some v => some v
    | none =>
      if category ≠ "" then
        to_float (pyOrO (pyOrO (rget pd "unrealisedPnl") (rget pd "unrealizedPnl"))
          (rget pd "pnl"))
      else none
  let rr_ratio := calc_rr side entry_price stop_loss take_profit
  let rsi_str :=
    match rsi with
    | some v => fmtNumQ v 2
    | none => "n/a"
  let bybit_link := make_bybit_link testnet category symbol
  let tv_link := make_tv_link symbol
  let lines1 : List String := [
    "🔔 <b>Исполнение ордера</b>",
    "",
    "<b>Биржа:</b> Bybit",
    "<b>Тип рынка:</b> " ++ market_type,
    "<b>Инструмент:</b> " ++ symbol,
    "<b>Сторона:</b> " ++ side,
    "<b>Тип ордера:</b> " ++ order_type,
    "<b>Статус:</b> " ++ order_status,
    "",
    "<b>Цена исполнения:</b> " ++ fmt_num avg_fill_price 6,
    "<b>Объем:</b> " ++ fmt_num filled_qty 6,
    "<b>Сумма:</b> " ++ fmt_num filled_notional 6,
    "<b>Комиссия:</b> " ++ fmt_num fee 6 ++ " " ++ fee_coin]
  let lines2 : List String :=
    match realized_pnl with
    | some v => ["<b>Реализованный PnL:</b> " ++ fmtNumQ v 6 ++ " " ++ pnl_coin]
    | none => []
  let lines3 : List String :=
    match current_pnl with
    | some v => ["<b>Текущий PnL:</b> " ++ fmtNumQ v 6 ++ " " ++ pnl_coin]
    | none => []
  let lines4 : List String :=
    match stop_loss with
    | some v => ["<b>Stop Loss:</b> " ++ fmtNumQ v 6]
    | none => []
  let lines5 : List String :=
    match take_profit with
    | some v => ["<b>Take Profit:</b> " ++ fmtNumQ v 6]
    | none => []
  let lines6 : List String :=
    match rr_ratio with
    | some v => ["<b>R:R:</b> " ++ fmtNumQ v 2]
    | none => []
  let lines7 : List String := [
    "<b>RSI (4H):</b> " ++ rsi_str,
    "",
    "<b>Время:</b> " ++ tl.1 ++ " (" ++ tl.2 ++ ")",
    "<b>ID исполнения:</b> " ++ exec_id,
    "<b>Order ID:</b> " ++ order_id,
    "",
    "🔗 <a href=\x27" ++ bybit_link ++ "\x27>Bybit</a> | <a href=\x27" ++
      tv_link ++ "\x27>TradingView</a>"]
  String.intercalate "\n"
    (lines1 ++ lines2 ++ lines3 ++ lines4 ++ lines5 ++ lines6 ++ lines7)

/-- Source `build_message` (bot.py lines 283-378): parses the timestamp (a failure
is the one caught-by-the-caller exception of the builder and leaves the
caches untouched), performs the enrichment lookups, and assembles the text.
Returns the text (or `none` for the exception) with both updated caches. -/
def build_message (env : Env) (evt : Rec) (oc : CacheL String Rec)
    (pc : CacheL (String × String) Rec) :
    Option String × CacheL String Rec × CacheL (String × String) Rec :=
  match bmTsMs evt with
  | none => (none, oc, pc)
  | some tsms =>
    let odr := bmOrderDetails env evt oc
    let pdr := bmPositionDetails env evt pc
    (some (buildText env.testnet env.utcOffsetHours evt tsms odr.1 pdr.1
       (bmRsi env evt)), odr.2, pdr.2)

/-- The mutable state threaded through `on_execution_message`: the seen-set,
the two REST caches, and the observable outputs (dispatched texts, info log,
error log — each log entry recording the execution ID it concerns). -/
structure ProcState where
  seen : List String
  oc : CacheL String Rec
  pc : CacheL (String × String) Rec
  sent : List String
  okLog : List String
  errLog : List String
deriving DecidableEq

/-- Operation `execid_seen.add` (a Python set add), modelled with insertion order. -/
def addSeen (s : List String) (id : String) : List String :=
  if id ∈ s then s else s ++ [id]

/-- Source `trim_exec_cache` (bot.py lines 387-391): when over capacity,
rebuild the set from the slice `list(execid_seen)[-EXECID_CACHE_MAX:]`.
For `EXECID_CACHE_MAX = 0` that slice is `[-0:] = [0:]`, the whole list, so
the rebuild removes nothing; for a positive capacity it keeps the last
`EXECID_CACHE_MAX` elements of the enumeration. Python's `list(execid_seen)`
enumerates in an unspecified order; the model fixes insertion order. -/
def trim_exec_cache (maxN : Nat) (s : List String) : List String :=
  if s.length ≤ maxN then s
  else if maxN = 0 then s
  else s.drop (s.length - maxN)

/-- The seen-set update performed for a fresh execution ID
(bot.py lines 414-415). -/
def markSeen (env : Env) (st : ProcState) (eid : String) : ProcState :=
  { st with seen := trim_exec_cache env.execidCacheMax (addSeen st.seen eid) }

/-- The `try` block of the per-event processing (bot.py lines 417-422): build
and dispatch, logging success or the caught failure with the execution ID. -/
def processEvent (env : Env) (eid : String) (evt : Rec) (st : ProcState) :
    ProcState :=
  match build_message env evt st.oc st.pc with
  | (none, oc', pc') =>
    { st with oc := oc', pc := pc', errLog := st.errLog ++ [eid] }
  | (some text, oc', pc') =>
    if env.sendOk text then
      { st with oc := oc', pc := pc',
                sent := st.sent ++ [text], okLog := st.okLog ++ [eid] }
    else
      { st with oc := oc', pc := pc', errLog := st.errLog ++ [eid] }

/-- The lowered execution type probed by the filter (bot.py line 403). -/
def execTypeOf (evt : Rec) : String :=
  pyLower (pyOr (rgetD evt "execType" "") (rgetD evt "exec_type" ""))

/-- The `for evt in data` loop of `on_execution_message`
(bot.py lines 402-422). Returning the state unchanged models the early
`return` on a duplicate execution ID. -/
def onExecLoop (env : Env) : List Rec → ProcState → ProcState
  | [], st => st
  | evt :: rest, st =>
    if execTypeOf evt ≠ "" ∧ execTypeOf evt ≠ "trade" then onExecLoop env rest st
    else
      let eid := rgetD evt "execId" ""
      if eid = "" then onExecLoop env rest st
      else if eid ∈ st.seen then st
      else onExecLoop env rest (processEvent env eid evt (markSeen env st eid))

/-- Source `on_execution_message` (bot.py lines 394-422). `msgData` is the `data`
field of the websocket message; `none` covers an absent/falsy or non-list
value, on which the handler does nothing. -/
def on_execution_message (env : Env) (msgData : Option (List Rec))
    (st : ProcState) : ProcState :=
  onExecLoop env (msgData.getD []) st

/-- A concrete environment used by witnesses: all REST lookups fail and the
Telegram send reports failure. -/
def envW : Env where
  now := 0
  utcOffsetHours := 7
  testnet := false
  execidCacheMax := 5
  orderFiltered := fun _ _ _ => none
  orderFallback := fun _ _ => none
  positions := fun _ _ => none
  kline := fun _ _ => none
  sendOk := fun _ => false

/-- A concrete environment used by witnesses: order lookups answer and the
send succeeds. -/
def envOk : Env where
  now := 5
  utcOffsetHours := 7
  testnet := false
  execidCacheMax := 5
  orderFiltered := fun _ _ _ =>
    some [[("orderId", "O1"), ("stopLoss", "90"), ("takeProfit", "130")]]
  orderFallback := fun _ _ => none
  positions := fun _ _ => none
  kline := fun _ _ => none
  sendOk := fun _ => true

/-- A copy of `envOk` differing only in collaborator behaviour that
`build_message` never reads (the send outcome). -/
def envOk2 : Env := { envOk with sendOk := fun _ => false }

/-- The empty processor state. -/
def stEmpty : ProcState := ⟨[], [], [], [], [], []⟩

/-- A processor state that has already seen execution ID `E1`. -/
def stSeenE1 : ProcState := ⟨["E1"], [], [], [], [], []⟩

/-- A concrete event used by the side-effect counterexample: a linear fill
with an order ID, so that `build_message` performs an order lookup. -/
def evtW : Rec :=
  [("category", "linear"), ("symbol", "BTCUSDT"), ("side", "Buy"),
   ("execId", "E1"), ("orderId", "O1"), ("execPrice", "100"),
   ("execQty", "1"), ("execTime", "0")]

end Bot

namespace Bot

/-- Helper: with a positive capacity, the trimmed seen-set never exceeds
it (at capacity 0 the source's slice keeps everything, so no bound holds
there). -/
theorem trim_exec_cache_length_le (m : Nat) (s : List String) (hm : 1 ≤ m) :
    (trim_exec_cache m s).length ≤ m := by
  unfold trim_exec_cache
  split
  · assumption
  · rw [if_neg (by omega)]
    rw [List.length_drop]
    omega

/-- C1: for every incoming batch processed by `on_execution_message`, if an
event's `execId` is already present in the seen-set, processing of the entire
remaining batch is abandoned: the handler returns with the state exactly as
it was, so no later event of the batch is marked seen, enriched, or
dispatched. -/
theorem claim_C1 (env : Env) (evt : Rec) (rest : List Rec) (st : ProcState)
    (hty : ¬(execTypeOf evt ≠ "" ∧ execTypeOf evt ≠ "trade"))
    (hid : rgetD evt "execId" "" ≠ "")
    (hseen : rgetD evt "execId" "" ∈ st.seen) :
    onExecLoop env (evt :: rest) st = st ∧
    on_execution_message env (some (evt :: rest)) st = st := by
  have h : onExecLoop env (evt :: rest) st = st := by
    simp only [onExecLoop, if_neg hty]
    rw [if_neg hid, if_pos hseen]
  exact ⟨h, h⟩

/-- Witness for C1 at a concrete duplicate batch. -/
theorem claim_C1_witness :
    onExecLoop envW [[("execId", "E1")], [("execId", "E2")]] stSeenE1 = stSeenE1 ∧
    on_execution_message envW (some [[("execId", "E1")], [("execId", "E2")]])
      stSeenE1 = stSeenE1 :=
  claim_C1 envW [("execId", "E1")] [[("execId", "E2")]] stSeenE1
    (by decide) (by decide) (by decide)

/-- C2: `calc_rr` returns `none` if any input price is missing; for long
sides risk is `entry - stopLoss` and reward `takeProfit - entry`, for short
sides risk is `stopLoss - entry` and reward `entry - takeProfit`; the result
is `none` when risk or reward is non-positive and `reward / risk` otherwise;
in particular the two documented examples both give 3. -/
theorem claim_C2 :
    (∀ side sl tp, calc_rr side none sl tp = none) ∧
    (∀ side e tp, calc_rr side e none tp = none) ∧
    (∀ side e sl, calc_rr side e sl none = none) ∧
    (∀ side (e slv tpv : ℚ),
      calc_rr side (some e) (some slv) (some tpv) =
        (if pyLower side = "buy" ∨ pyLower side = "long" then
           (if e - slv ≤ 0 ∨ tpv - e ≤ 0 then none
            else some ((tpv - e) / (e - slv)))
         else
           (if slv - e ≤ 0 ∨ e - tpv ≤ 0 then none
            else some ((e - tpv) / (slv - e))))) ∧
    calc_rr "buy" (some 100) (some 90) (some 130) = some 3 ∧
    calc_rr "sell" (some 100) (some 110) (some 70) = some 3 := by
  refine ⟨?_, ?_, ?_, ?_, ?_, ?_⟩
  · intro side sl tp
    cases sl <;> cases tp <;> rfl
  · intro side e tp
    cases e <;> cases tp <;> rfl
  · intro side e sl
    cases e <;> cases sl <;> rfl
  · intro side e slv tpv
    by_cases h : pyLower side = "buy" ∨ pyLower side = "long" <;>
      simp [calc_rr, h]
  · have h : pyLower "buy" = "buy" := by decide
    simp only [calc_rr, h]
    norm_num
  · have h : pyLower "sell" = "sell" := by decide
    have h2 : ¬("sell" = "buy" ∨ "sell" = "long") := by decide
    simp only [calc_rr, h, if_neg h2]
    norm_num

/-- C7 counterexample: at configured maximum 0 the size bound is false of
the program — `trim_exec_cache` rebuilds from the slice `[-0:]`, which is
the whole list, so one insertion already leaves the set at size 1 > 0. -/
theorem claim_C7_counterexample :
    ¬ ((["a"].foldl (fun acc i => trim_exec_cache 0 (addSeen acc i))
        []).length ≤ 0) := by
  decide

/-- C7 (amended): with a positive configured maximum, after any nonempty
sequence of insert-then-trim steps the seen-set has at most that many
elements (at maximum 0 the trim never removes anything and the set grows
unboundedly); an inserted execution ID is in the set, and any ID the trim
has not evicted is reported as seen by the membership check. -/
theorem claim_C7 (m : Nat) (s ids : List String) (id : String) (hm : 1 ≤ m) :
    (ids ≠ [] →
      (ids.foldl (fun acc i => trim_exec_cache m (addSeen acc i)) s).length ≤ m) ∧
    id ∈ addSeen s id ∧
    (id ∈ trim_exec_cache m (addSeen s id) →
      (trim_exec_cache m (addSeen s id)).contains id = true) := by
  refine ⟨?_, ?_, ?_⟩
  · intro hne
    induction ids generalizing s with
    | nil => exact absurd rfl hne
    | cons i ids ih =>
      rw [List.foldl_cons]
      rcases ids with _ | ⟨j, ids⟩
      · exact trim_exec_cache_length_le m _ hm
      · exact ih _ (by simp)
  · unfold addSeen
    split
    · assumption
    · simp
  · intro h
    simpa using h

/-- Witness for C7 at a concrete insertion sequence with capacity 2. -/
theorem claim_C7_witness :
    (["b", "c", "d"].foldl
      (fun acc i => trim_exec_cache 2 (addSeen acc i)) ["a"]).length ≤ 2 ∧
    "z" ∈ addSeen ["a"] "z" ∧
    (trim_exec_cache 2 (addSeen ["a"] "z")).contains "z" = true := by
  have h := claim_C7 2 ["a"] ["b", "c", "d"] "z" (by decide)
  exact ⟨h.1 (by decide), h.2.1, h.2.2 (by decide)⟩

section CacheTheorems

variable {K V : Type} [DecidableEq K]

/-- Helper: a dict lookup finds the unique entry carrying the key. -/
theorem cacheFind_of_mem {c : CacheL K V} {k : K} {ts : Int} {v : V}
    (hmem : (k, ts, v) ∈ c) (hnd : (keysOf c).Nodup) :
    cacheFind c k = some (ts, v) := by
  induction c with
  | nil => cases hmem
  | cons e es ih =>
    have hnd2 : e.1 ∉ keysOf es ∧ (keysOf es).Nodup := List.nodup_cons.mp hnd
    simp only [cacheFind]
    by_cases hek : e.1 = k
    · rw [if_pos hek]
      rcases List.mem_cons.mp hmem with h | h
      · rw [← h]
      · exact absurd (List.mem_map.mpr ⟨(k, ts, v), h, rfl⟩) (hek ▸ hnd2.1)
    · rw [if_neg hek]
      apply ih ?_ hnd2.2
      rcases List.mem_cons.mp hmem with h | h
      · exact absurd (congrArg Prod.fst h.symm) hek
      · exact h

/-- Helper: after filtering a key away, the key is gone. -/
theorem cacheFind_filter_self (c : CacheL K V) (k : K) :
    cacheFind (c.filter (fun e => decide (e.1 ≠ k))) k = none := by
  induction c with
  | nil => rfl
  | cons e es ih =>
    rw [List.filter_cons]
    by_cases hek : e.1 = k
    · rw [if_neg (by simp [hek])]
      exact ih
    · rw [if_pos (by simp [hek])]
      simp only [cacheFind, if_neg hek]
      exact ih

/-- C4: a TTL-cache `get` on a key stored at timestamp `ts` returns `none`
and erases the entry when `now - ts > ttl`, and returns the stored value
(leaving the cache unchanged) when `now - ts ≤ ttl`; a stale entry is never
returned. -/
theorem claim_C4 (c : CacheL K V) (k : K) (ts : Int) (v : V) (now ttl : Int)
    (hmem : (k, ts, v) ∈ c) (hnd : (keysOf c).Nodup) :
    (ttl < now - ts →
      cache_get c k now ttl = (none, c.filter (fun e => decide (e.1 ≠ k))) ∧
      cacheFind (cache_get c k now ttl).2 k = none) ∧
    (now - ts ≤ ttl → cache_get c k now ttl = (some v, c)) := by
  have hf : cacheFind c k = some (ts, v) := cacheFind_of_mem hmem hnd
  constructor
  · intro h
    have he : cache_get c k now ttl =
        (none, c.filter (fun e => decide (e.1 ≠ k))) := by
      simp only [cache_get, hf]
      rw [if_pos h]
    exact ⟨he, by rw [he]; exact cacheFind_filter_self c k⟩
  · intro h
    simp only [cache_get, hf]
    rw [if_neg (not_lt.mpr h)]

/-- Witness for C4: a stale hit evicts, a fresh hit returns the value. -/
theorem claim_C4_witness :
    cache_get (K := Nat) (V := Nat) [(0, 10, 42)] 0 20 5 = (none, []) ∧
    cache_get (K := Nat) (V := Nat) [(0, 10, 42)] 0 20 100 =
      (some 42, [(0, 10, 42)]) :=
  ⟨((claim_C4 [(0, 10, 42)] 0 10 42 20 5 (by decide) (by decide)).1
      (by decide)).1,
   (claim_C4 [(0, 10, 42)] 0 10 42 20 100 (by decide) (by decide)).2
      (by decide)⟩

/-- Helper: keys of a store — unchanged for an update, appended for a new
key. -/
theorem keysOf_cacheStore (c : CacheL K V) (k : K) (t : Int) (v : V) :
    keysOf (cacheStore c k t v) =
      if k ∈ keysOf c then keysOf c else keysOf c ++ [k] := by
  unfold cacheStore
  split
  · unfold keysOf
    rw [List.map_map]
    apply List.map_congr_left
    intro e _
    by_cases h : e.1 = k
    · simp [h]
    · simp [h]
  · simp [keysOf]

/-- Helper: a store keeps the keys without duplicates. -/
theorem nodup_keysOf_cacheStore (c : CacheL K V) (k : K) (t : Int) (v : V)
    (hnd : (keysOf c).Nodup) : (keysOf (cacheStore c k t v)).Nodup := by
  rw [keysOf_cacheStore]
  split
  · exact hnd
  · rename_i h
    rw [List.nodup_append]
    refine ⟨hnd, List.nodup_singleton k, ?_⟩
    intro a ha hb
    simp only [List.mem_singleton] at hb
    subst hb
    exact h ha

/-- Helper: updating in place makes the new entry visible under the key. -/
theorem cacheFind_mapUpd (c : CacheL K V) (k : K) (t : Int) (v : V)
    (hk : k ∈ keysOf c) :
    cacheFind (c.map (fun e => if e.1 = k then (k, t, v) else e)) k =
      some (t, v) := by
  induction c with
  | nil => simp [keysOf] at hk
  | cons e es ih =>
    simp only [List.map_cons]
    by_cases hek : e.1 = k
    · rw [if_pos hek]
      simp [cacheFind]
    · rw [if_neg hek]
      simp only [cacheFind, if_neg hek]
      rcases List.mem_cons.mp hk with h | h
      · exact absurd h.symm hek
      · exact ih h

/-- Helper: appending a fresh key makes the new entry visible under it. -/
theorem cacheFind_append_self (c : CacheL K V) (k : K) (t : Int) (v : V)
    (hk : k ∉ keysOf c) :
    cacheFind (c ++ [(k, t, v)]) k = some (t, v) := by
  induction c with
  | nil => simp [cacheFind]
  | cons e es ih =>
    have hek : ¬ e.1 = k := fun hh => hk (List.mem_cons.mpr (Or.inl hh.symm))
    simp only [List.cons_append, cacheFind, if_neg hek]
    exact ih (fun hmem => hk (List.mem_cons.mpr (Or.inr hmem)))

/-- Helper: a store makes the new timestamp and value visible under the
key. -/
theorem cacheFind_cacheStore_self (c : CacheL K V) (k : K) (t : Int) (v : V) :
    cacheFind (cacheStore c k t v) k = some (t, v) := by
  unfold cacheStore
  split
  · exact cacheFind_mapUpd c k t v (by assumption)
  · exact cacheFind_append_self c k t v (by assumption)

/-- Helper: the eviction step of `cache_put` removes exactly the
`length - maxItems` oldest entries of an over-capacity dict. -/
theorem evict_facts (l : CacheL K V) (m : Nat) (hnd : (keysOf l).Nodup)
    (hover : m < l.length) :
    (l.filter (fun e => decide (e.1 ∉
        keysOf ((List.insertionSort tsLe l).take (max 1 (l.length - m)))))).length
      = m ∧
    (∀ e ∈ l, e ∉ l.filter (fun e => decide (e.1 ∉
        keysOf ((List.insertionSort tsLe l).take (max 1 (l.length - m))))) →
      ∀ e' ∈ l.filter (fun e => decide (e.1 ∉
        keysOf ((List.insertionSort tsLe l).take (max 1 (l.length - m))))),
        e.2.1 ≤ e'.2.1) := by
  set srt := List.insertionSort tsLe l with hsrt
  have hperm : srt.Perm l := List.perm_insertionSort tsLe l
  have hsorted : srt.Sorted tsLe := List.sorted_insertionSort tsLe l
  have hlen : srt.length = l.length := hperm.length_eq
  set n := max 1 (l.length - m) with hndef
  have hn : n = l.length - m := by omega
  have hsplit : srt.take n ++ srt.drop n = srt := List.take_append_drop n srt
  have hndsrt : (keysOf srt).Nodup := ((hperm.map Prod.fst).nodup_iff).mpr hnd
  have hkeysplit : keysOf (srt.take n) ++ keysOf (srt.drop n) = keysOf srt := by
    unfold keysOf
    rw [← List.map_append, hsplit]
  have hdisj : ∀ a, a ∈ keysOf (srt.take n) → a ∈ keysOf (srt.drop n) → False := by
    have := hkeysplit ▸ hndsrt
    rw [List.nodup_append] at this
    exact fun a ha hb => this.2.2 ha hb
  set p := (fun e : K × Int × V => decide (e.1 ∉ keysOf (srt.take n))) with hp
  have hfiltake : (srt.take n).filter p = [] := by
    apply List.filter_eq_nil_iff.mpr
    intro e he
    simp only [hp, decide_eq_true_eq, Decidable.not_not]
    exact List.mem_map.mpr ⟨e, he, rfl⟩
  have hfildrop : (srt.drop n).filter p = srt.drop n := by
    apply List.filter_eq_self.mpr
    intro e he
    simp only [hp, decide_eq_true_eq]
    exact fun hc => hdisj e.1 hc (List.mem_map.mpr ⟨e, he, rfl⟩)
  have hfilsrt : srt.filter p = srt.drop n := by
    conv_lhs => rw [← hsplit]
    rw [List.filter_append, hfiltake, hfildrop, List.nil_append]
  have hfilperm : (l.filter p).Perm (srt.drop n) := by
    rw [← hfilsrt]
    exact (hperm.filter p).symm
  constructor
  · rw [hfilperm.length_eq, List.length_drop, hlen]
    omega
  · intro e he hnot e' he'
    have hpe : ¬ p e = true := by
      intro hpe
      exact hnot (List.mem_filter.mpr ⟨he, hpe⟩)
    have hein : e.1 ∈ keysOf (srt.take n) := by
      simpa [hp] using hpe
    have hetake : e ∈ srt.take n := by
      have : e ∈ srt.take n ++ srt.drop n := by
        rw [hsplit]
        exact hperm.mem_iff.mpr he
      rcases List.mem_append.mp this with h | h
      · exact h
      · exact absurd (List.mem_map.mpr ⟨e, h, rfl⟩) (fun hc => hdisj e.1 hein hc)
    have hedrop : e' ∈ srt.drop n := by
      rw [← hfilsrt]
      exact (hperm.filter p).mem_iff.mpr he'
    have := (List.pairwise_append.mp (hsplit ▸ hsorted)).2.2
    exact this e hetake e' hedrop

/-- C3: a TTL-cache `put` overwrites the entry for the key and resets its
timestamp; afterwards, if the dict holds more than `maxItems` entries,
exactly `size - maxItems` entries are evicted, all of them no newer than
every surviving entry, so the size after every put is
`min size maxItems ≤ maxItems`; in particular three puts of distinct keys
with capacity two evict exactly the oldest key. -/
theorem claim_C3 (c : CacheL K V) (k : K) (t : Int) (v : V) (m : Nat)
    (hnd : (keysOf c).Nodup) :
    cacheFind (cacheStore c k t v) k = some (t, v) ∧
    (cache_put c k t v m).length = min (cacheStore c k t v).length m ∧
    (∀ e ∈ cacheStore c k t v, e ∉ cache_put c k t v m →
      ∀ e' ∈ cache_put c k t v m, e.2.1 ≤ e'.2.1) ∧
    cache_put (cache_put (cache_put ([] : CacheL Nat Nat) 1 1 10 2) 2 2 20 2)
      3 3 30 2 = [(2, 2, 20), (3, 3, 30)] := by
  have hnd' : (keysOf (cacheStore c k t v)).Nodup :=
    nodup_keysOf_cacheStore c k t v hnd
  refine ⟨cacheFind_cacheStore_self c k t v, ?_, ?_, by decide⟩
  · unfold cache_put
    by_cases hover : m < (cacheStore c k t v).length
    · rw [if_pos hover]
      rw [(evict_facts (cacheStore c k t v) m hnd' hover).1]
      omega
    · rw [if_neg hover]
      omega
  · intro e he hnot e' he'
    unfold cache_put at hnot he'
    by_cases hover : m < (cacheStore c k t v).length
    · rw [if_pos hover] at hnot he'
      exact (evict_facts (cacheStore c k t v) m hnd' hover).2 e he hnot e' he'
    · rw [if_neg hover] at hnot
      exact absurd he hnot

/-- Witness for C3 at a concrete overflowing put. -/
theorem claim_C3_witness :
    cacheFind (cacheStore [((1 : Nat), (1 : Int), (10 : Nat)), (2, 2, 20)] 3 3 30)
      3 = some (3, 30) ∧
    (cache_put [((1 : Nat), (1 : Int), (10 : Nat)), (2, 2, 20)] 3 3 30 2).length =
      min (cacheStore [((1 : Nat), (1 : Int), (10 : Nat)), (2, 2, 20)] 3 3 30).length 2 := by
  have h := claim_C3 [((1 : Nat), (1 : Int), (10 : Nat)), (2, 2, 20)] 3 3 30 2
    (by decide)
  exact ⟨h.1, h.2.1⟩

/-- Helper: an absent key is exactly a failed lookup. -/
theorem cacheFind_none_iff (c : CacheL K V) (k : K) :
    cacheFind c k = none ↔ k ∉ keysOf c := by
  induction c with
  | nil => simp [cacheFind, keysOf]
  | cons e es ih =>
    simp only [cacheFind, keysOf, List.map_cons, List.mem_cons]
    by_cases hek : e.1 = k
    · rw [if_pos hek]
      simp [hek]
    · rw [if_neg hek]
      constructor
      · intro h hc
        rcases hc with hc | hc
        · exact hek hc.symm
        · exact (ih.mp h) hc
      · intro h
        exact ih.mpr (fun hc => h (Or.inr hc))

/-- Helper: a miss result of `cache_get` leaves a cache without the key. -/
theorem cache_get_none_not_mem {c c₁ : CacheL K V} {k : K} {now ttl : Int}
    (h : cache_get c k now ttl = (none, c₁)) : k ∉ keysOf c₁ := by
  cases hf : cacheFind c k with
  | none =>
    simp only [cache_get, hf] at h
    have h2 : c = c₁ := congrArg Prod.snd h
    rw [← h2]
    exact (cacheFind_none_iff c k).mp hf
  | some tv =>
    obtain ⟨ts, v⟩ := tv
    simp only [cache_get, hf] at h
    by_cases hst : ttl < now - ts
    · rw [if_pos hst] at h
      have h2 : c.filter (fun e => decide (e.1 ≠ k)) = c₁ := congrArg Prod.snd h
      rw [← h2]
      intro hc
      rcases List.mem_map.mp hc with ⟨e, he, hek⟩
      have hpe := (List.mem_filter.mp he).2
      rw [hek] at hpe
      simp at hpe
    · rw [if_neg hst] at h
      exact absurd (show some v = none from congrArg Prod.fst h) (by simp)

/-- Helper: a put into a cache with spare capacity makes the fresh entry
visible. -/
theorem cacheFind_cache_put_fresh (c : CacheL K V) (k : K) (t : Int) (v : V)
    (m : Nat) (hcap : c.length < m) (hk : k ∉ keysOf c) :
    cacheFind (cache_put c k t v m) k = some (t, v) := by
  have hlen : (cacheStore c k t v).length = c.length + 1 := by
    unfold cacheStore
    rw [if_neg hk]
    simp
  unfold cache_put
  rw [if_neg (by omega)]
  exact cacheFind_cacheStore_self c k t v

end CacheTheorems

/-- C5: `get_order_details` returns the empty record at once for an empty
order ID, touching neither the cache nor the REST collaborator; otherwise it
answers from the cache when possible; on a miss it returns and caches the
head of the filtered query's answer, else the fallback scan's match, and
when both produce nothing it caches the empty record under the order ID
(negative caching, visible on the next lookup) and returns it — so every
outcome is cached and no lookup error escapes. -/
theorem claim_C5 (oc oc₁ : CacheL String Rec) (category symbol order_id : String)
    (now ttl : Int) (maxItems : Nat) (respF respB : Option (List Rec)) :
    (order_id = "" →
      get_order_details oc category symbol order_id now respF respB ttl maxItems =
        ([], oc, false, false)) ∧
    (∀ v, order_id ≠ "" → cache_get oc order_id now ttl = (some v, oc₁) →
      get_order_details oc category symbol order_id now respF respB ttl maxItems =
        (v, oc₁, false, false)) ∧
    (order_id ≠ "" → cache_get oc order_id now ttl = (none, oc₁) →
      pyLower category ≠ "" →
      (∀ r lrest, respF = some (r :: lrest) →
        get_order_details oc category symbol order_id now respF respB ttl maxItems =
          (r, cache_put oc₁ order_id now r maxItems, true, false)) ∧
      ((respF = none ∨ respF = some []) →
        (∀ lst r, respB = some lst →
          lst.find? (fun it => rgetD it "orderId" "" == order_id) = some r →
          get_order_details oc category symbol order_id now respF respB ttl maxItems
            = (r, cache_put oc₁ order_id now r maxItems, true, true)) ∧
        ((∀ lst, respB = some lst → ∀ r ∈ lst, rgetD r "orderId" "" ≠ order_id) →
          get_order_details oc category symbol order_id now respF respB ttl maxItems
            = ([], cache_put oc₁ order_id now [] maxItems, true, true) ∧
          (oc₁.length < maxItems →
            cacheFind (cache_put oc₁ order_id now [] maxItems) order_id =
              some (now, ([] : Rec)))))) := by
  refine ⟨?_, ?_, ?_⟩
  · intro h
    subst h
    rfl
  · intro v hne hcg
    simp only [get_order_details, if_neg hne, hcg]
  · intro hne hcg hcat
    have hfresh : order_id ∉ keysOf oc₁ := cache_get_none_not_mem hcg
    constructor
    · intro r lrest hF
      simp only [get_order_details, if_neg hne, hcg, if_neg hcat, hF]
    · intro hFe
      constructor
      · intro lst r hB hfind
        rcases hFe with hF | hF <;>
          simp only [get_order_details, if_neg hne, hcg, if_neg hcat, hF, hB, hfind]
      · intro hnomatch
        have hBnone :
            get_order_details oc category symbol order_id now respF respB ttl
              maxItems = ([], cache_put oc₁ order_id now [] maxItems, true, true) := by
          cases hB : respB with
          | none =>
            rcases hFe with hF | hF <;>
              simp only [get_order_details, if_neg hne, hcg, if_neg hcat, hF, hB]
          | some lst =>
            have hfind : lst.find? (fun it => rgetD it "orderId" "" == order_id)
                = none := by
              apply List.find?_eq_none.mpr
              intro x hx
              simpa using hnomatch lst hB x hx
            rcases hFe with hF | hF <;>
              simp only [get_order_details, if_neg hne, hcg, if_neg hcat, hF, hB,
                hfind]
        refine ⟨hBnone, ?_⟩
        intro hcap
        exact cacheFind_cache_put_fresh oc₁ order_id now [] maxItems hcap hfresh

/-- Witness for C5: empty order ID, and a full negative-caching miss. -/
theorem claim_C5_witness :
    get_order_details [] "linear" "BTCUSDT" "" 0 none none 3600 3000 =
      ([], [], false, false) ∧
    get_order_details [] "linear" "BTCUSDT" "O9" 0 (some []) (some [[("orderId", "X")]])
      3600 3000 = ([], cache_put [] "O9" 0 [] 3000, true, true) ∧
    cacheFind (cache_put ([] : CacheL String Rec) "O9" 0 [] 3000) "O9" =
      some (0, ([] : Rec)) := by
  refine ⟨(claim_C5 [] [] "linear" "BTCUSDT" "" 0 3600 3000 none none).1 rfl, ?_⟩
  have h := ((claim_C5 [] [] "linear" "BTCUSDT" "O9" 0 3600 3000 (some [])
    (some [[("orderId", "X")]])).2.2 (by decide) rfl (by decide)).2
    (Or.inr rfl)
  have h2 := h.2 (by
    intro lst hl r hr
    cases hl
    simp only [List.mem_singleton] at hr
    subst hr
    decide)
  exact ⟨h2.1, h2.2 (by decide)⟩

/-- Helper: Wilder smoothing keeps a nonnegative average nonnegative when
fed nonnegative inputs. -/
theorem smoothAvg_nonneg (length : Nat) (hl : 0 < length) :
    ∀ (xs : List ℚ) (init : ℚ), 0 ≤ init → (∀ x ∈ xs, 0 ≤ x) →
      0 ≤ smoothAvg length init xs := by
  intro xs
  induction xs with
  | nil => intro init h0 _; exact h0
  | cons x xs ih =>
    intro init h0 hxs
    have hstep : smoothAvg length init (x :: xs) =
        smoothAvg length ((init * ((length : ℚ) - 1) + x) / (length : ℚ)) xs := rfl
    rw [hstep]
    apply ih
    · have h1 : (1 : ℚ) ≤ (length : ℚ) := by exact_mod_cast hl
      have h2 : (0 : ℚ) ≤ (length : ℚ) - 1 := by linarith
      have hx0 : 0 ≤ x := hxs x (by simp)
      have h3 := mul_nonneg h0 h2
      apply div_nonneg
      · linarith
      · positivity
    · intro y hy
      exact hxs y (by simp [hy])

/-- Helper: the final average gain is nonnegative. -/
theorem rsiAvgGain_nonneg (length : Nat) (hl : 0 < length) (rows : List Kline) :
    0 ≤ rsiAvgGain length rows := by
  simp only [rsiAvgGain]
  apply smoothAvg_nonneg length hl
  · apply div_nonneg
    · apply List.sum_nonneg
      intro x hx
      rcases List.mem_map.mp (List.take_subset _ _ hx) with ⟨d, _, rfl⟩
      exact le_max_right d 0
    · positivity
  · intro x hx
    rcases List.mem_map.mp (List.drop_subset _ _ hx) with ⟨d, _, rfl⟩
    exact le_max_right d 0

/-- Helper: the final average loss is nonnegative. -/
theorem rsiAvgLoss_nonneg (length : Nat) (hl : 0 < length) (rows : List Kline) :
    0 ≤ rsiAvgLoss length rows := by
  simp only [rsiAvgLoss]
  apply smoothAvg_nonneg length hl
  · apply div_nonneg
    · apply List.sum_nonneg
      intro x hx
      rcases List.mem_map.mp (List.take_subset _ _ hx) with ⟨d, _, rfl⟩
      exact le_max_right (-d) 0
    · positivity
  · intro x hx
    rcases List.mem_map.mp (List.drop_subset _ _ hx) with ⟨d, _, rfl⟩
    exact le_max_right (-d) 0

/-- C6: with a nonempty lowered category and a positive lookback,
`get_rsi_4h` returns `none` on fewer than `length + 2` bars; on enough bars
it works on the rows sorted ascending by timestamp (a permutation of the
fetch result), returns exactly 100 when the final average loss is zero and
`100 - 100/(1 + avg_gain/avg_loss)` otherwise, and any returned value lies
in `[0, 100]`. -/
theorem claim_C6 (category symbol : String) (length : Nat) (rows : List Kline)
    (hc : ¬ pyLower category = "") (hl : 0 < length) :
    (rows.length < length + 2 →
      get_rsi_4h (some rows) category symbol length = none) ∧
    (length + 2 ≤ rows.length →
      (List.insertionSort rowLe rows).Sorted rowLe ∧
      (List.insertionSort rowLe rows).Perm rows ∧
      get_rsi_4h (some rows) category symbol length =
        (if rsiAvgLoss length rows = 0 then some 100
         else some (100 - 100 /
           (1 + rsiAvgGain length rows / rsiAvgLoss length rows))) ∧
      (∀ q, get_rsi_4h (some rows) category symbol length = some q →
        0 ≤ q ∧ q ≤ 100)) := by
  constructor
  · intro hlt
    simp only [get_rsi_4h, if_neg hc, rsiFromRows]
    rw [if_pos (Or.inr hlt)]
  · intro hge
    have hne : ¬ (rows = [] ∨ rows.length < length + 2) := by
      rintro (h | h)
      · rw [h] at hge
        simp at hge
      · omega
    have heq : get_rsi_4h (some rows) category symbol length =
        (if rsiAvgLoss length rows = 0 then some 100
         else some (100 - 100 /
           (1 + rsiAvgGain length rows / rsiAvgLoss length rows))) := by
      simp only [get_rsi_4h, if_neg hc, rsiFromRows]
      rw [if_neg hne, if_neg (by omega : ¬ length = 0)]
    refine ⟨List.sorted_insertionSort rowLe rows,
      List.perm_insertionSort rowLe rows, heq, ?_⟩
    intro q hq
    rw [heq] at hq
    by_cases hz : rsiAvgLoss length rows = 0
    · rw [if_pos hz] at hq
      have h100 := Option.some.inj hq
      rw [← h100]
      norm_num
    · rw [if_neg hz] at hq
      have hval := Option.some.inj hq
      have hg : 0 ≤ rsiAvgGain length rows := rsiAvgGain_nonneg length hl rows
      have hl0 : 0 ≤ rsiAvgLoss length rows := rsiAvgLoss_nonneg length hl rows
      have hrs : 0 ≤ rsiAvgGain length rows / rsiAvgLoss length rows :=
        div_nonneg hg hl0
      have h1 : (1 : ℚ) ≤ 1 + rsiAvgGain length rows / rsiAvgLoss length rows := by
        linarith
      have hdivpos :
          0 < 100 / (1 + rsiAvgGain length rows / rsiAvgLoss length rows) := by
        positivity
      have hdivle :
          100 / (1 + rsiAvgGain length rows / rsiAvgLoss length rows) ≤ 100 :=
        div_le_self (by norm_num) h1
      constructor <;> linarith [hval]

/-- Witness for C6: three strictly rising bars with lookback 1 give RSI
exactly 100. -/
theorem claim_C6_witness :
    get_rsi_4h (some [((0 : Int), (1 : ℚ)), (1, 2), (2, 3)]) "linear" "S" 1 =
      some 100 := by
  have h := ((claim_C6 "linear" "S" 1 [(0, 1), (1, 2), (2, 3)] (by decide)
    (by norm_num)).2 (by norm_num)).2.2.1
  have hz : rsiAvgLoss 1 [((0 : Int), (1 : ℚ)), (1, 2), (2, 3)] = 0 := by
    norm_num [rsiAvgLoss, lossesOf, deltasOf, smoothAvg, List.insertionSort,
      List.orderedInsert, rowLe, max_def]
  rw [h, if_pos hz]

/-- C9: for an event that passes the fill filter and the dedup check, a
failure while building the message (the caught exception, modelled by
`build_message` returning `none`) or while dispatching it (the send
reporting failure) is recorded in the error log together with the offending
execution ID, after which the loop continues with the rest of the batch;
nothing propagates out of the total handler function. -/
theorem claim_C9 (env : Env) (evt : Rec) (rest : List Rec) (st : ProcState)
    (hty : ¬(execTypeOf evt ≠ "" ∧ execTypeOf evt ≠ "trade"))
    (hid : rgetD evt "execId" "" ≠ "")
    (hfresh : rgetD evt "execId" "" ∉ st.seen) :
    (∀ oc' pc',
      build_message env evt st.oc st.pc = (none, oc', pc') →
      onExecLoop env (evt :: rest) st =
        onExecLoop env rest
          { markSeen env st (rgetD evt "execId" "") with
              oc := oc', pc := pc',
              errLog := st.errLog ++ [rgetD evt "execId" ""] }) ∧
    (∀ text oc' pc',
      build_message env evt st.oc st.pc = (some text, oc', pc') →
      env.sendOk text = false →
      onExecLoop env (evt :: rest) st =
        onExecLoop env rest
          { markSeen env st (rgetD evt "execId" "") with
              oc := oc', pc := pc',
              errLog := st.errLog ++ [rgetD evt "execId" ""] }) := by
  have hstep : onExecLoop env (evt :: rest) st =
      onExecLoop env rest
        (processEvent env (rgetD evt "execId" "") evt
          (markSeen env st (rgetD evt "execId" ""))) := by
    simp only [onExecLoop, if_neg hty]
    rw [if_neg hid, if_neg hfresh]
  constructor
  · intro oc' pc' hb
    rw [hstep]
    unfold processEvent
    rw [show (markSeen env st (rgetD evt "execId" "")).oc = st.oc from rfl,
        show (markSeen env st (rgetD evt "execId" "")).pc = st.pc from rfl, hb]
    rfl
  · intro text oc' pc' hb hsend
    rw [hstep]
    unfold processEvent
    rw [show (markSeen env st (rgetD evt "execId" "")).oc = st.oc from rfl,
        show (markSeen env st (rgetD evt "execId" "")).pc = st.pc from rfl, hb]
    simp only [hsend]
    rfl

/-- Witness for C9: a build failure (unparsable `execTime`) and a dispatch
failure, both on concrete events, each continuing with the rest of the
batch and logging the execution ID. -/
theorem claim_C9_witness :
    (onExecLoop envW [[("execId", "E1"), ("execTime", "bad")]] stEmpty =
      onExecLoop envW []
        { markSeen envW stEmpty "E1" with
            oc := [], pc := [], errLog := stEmpty.errLog ++ ["E1"] }) ∧
    (onExecLoop envW [[("execId", "E2")]] stEmpty =
      onExecLoop envW []
        { markSeen envW stEmpty "E2" with
            oc := [], pc := [], errLog := stEmpty.errLog ++ ["E2"] }) := by
  constructor
  · exact (claim_C9 envW [("execId", "E1"), ("execTime", "bad")] [] stEmpty
      (by decide) (by decide) (by decide)).1 [] [] rfl
  · exact (claim_C9 envW [("execId", "E2")] [] stEmpty
      (by decide) (by decide) (by decide)).2
      (buildText envW.testnet envW.utcOffsetHours [("execId", "E2")] 0 [] [] none)
      [] [] rfl rfl

/-- C10: an event whose `execId` field is missing or empty (only the literal
key `execId` is probed here, not the `exec_id` spelling the message builder
also accepts) is skipped silently: the state is untouched and the loop
continues with the remaining events. -/
theorem claim_C10 (env : Env) (evt : Rec) (rest : List Rec) (st : ProcState)
    (hid : rgetD evt "execId" "" = "") :
    onExecLoop env (evt :: rest) st = onExecLoop env rest st ∧
    on_execution_message env (some (evt :: rest)) st = onExecLoop env rest st := by
  have h : onExecLoop env (evt :: rest) st = onExecLoop env rest st := by
    by_cases hty : execTypeOf evt ≠ "" ∧ execTypeOf evt ≠ "trade"
    · simp only [onExecLoop, if_pos hty]
    · simp only [onExecLoop, if_neg hty]
      rw [if_pos hid]
  exact ⟨h, h⟩

/-- Witness for C10: an event carrying only the `exec_id` spelling (and a
fill type) is skipped even though the builder-side spelling is present. -/
theorem claim_C10_witness :
    onExecLoop envW [[("exec_id", "E9"), ("execType", "Trade")]] stEmpty =
      onExecLoop envW [] stEmpty ∧
    on_execution_message envW
      (some [[("exec_id", "E9"), ("execType", "Trade")]]) stEmpty =
      onExecLoop envW [] stEmpty :=
  claim_C10 envW [("exec_id", "E9"), ("execType", "Trade")] [] stEmpty (by decide)

/-- C8 counterexample: `build_message` is not free of side effects — on a
concrete event with an order ID it grows the order cache (and issues REST
lookups to do so), so the run mutates state even though the output text is
determined by the event and the enrichment values. -/
theorem claim_C8_counterexample :
    (build_message envOk evtW [] []).2.1 ≠ [] := by
  decide

/-- C8 (amended): the output text of `build_message` is a function of the
event, the enrichment values it obtained (order details, position details,
indicator), and the two configuration values it reads; two runs agreeing on
those produce the same string — but the run does mutate the caches, so the
original "no side effects" part is false. -/
theorem claim_C8 (env₁ env₂ : Env) (evt : Rec) (oc₁ oc₂ : CacheL String Rec)
    (pc₁ pc₂ : CacheL (String × String) Rec)
    (htn : env₁.testnet = env₂.testnet)
    (hoff : env₁.utcOffsetHours = env₂.utcOffsetHours)
    (hod : (bmOrderDetails env₁ evt oc₁).1 = (bmOrderDetails env₂ evt oc₂).1)
    (hpd : (bmPositionDetails env₁ evt pc₁).1 = (bmPositionDetails env₂ evt pc₂).1)
    (hrsi : bmRsi env₁ evt = bmRsi env₂ evt) :
    (build_message env₁ evt oc₁ pc₁).1 = (build_message env₂ evt oc₂ pc₂).1 := by
  cases hts : bmTsMs evt with
  | none => simp only [build_message, hts]
  | some tsms =>
    simp only [build_message, hts]
    rw [htn, hoff, hod, hpd, hrsi]

/-- Witness for C8: two environments differing in behaviour the builder
never reads produce the same text on the same event. -/
theorem claim_C8_witness :
    (build_message envOk evtW [] []).1 = (build_message envOk2 evtW [] []).1 :=
  claim_C8 envOk envOk2 evtW [] [] [] [] rfl rfl rfl rfl rfl

end Bot
